import Mathlib

/-!
Verification of the array-node compiler and the object/string rules of
a schema validator.

A shallow embedding of the `@adonisjs/validator` array node compiler
(`src/Compiler/Nodes/Array.ts`) together with the `object` and `string`
validation rules, and proofs of the specified properties.

The schema data model, `ArrayCompiler` (with its private helpers
`declareOutVariable`, `startIfGuard`, `endIfGuard`, `startAsyncForLoop`,
`startForLoop`, `endForLoop`, `hasAsyncChildren`, `compile`) and the two
rules are translated from the source.  The `CompilerBuffer`, the
orchestrating `Compiler` helpers (`pointerToExpression`,
`getVariableExistsName`, `compileNode`) and the `LiteralCompiler` are not
part of the given sources; they are modelled from the specification
(sections 2, 4.1, 4.2) and the recursive dispatch `compileNode` is kept
abstract as a parameter.
-/

namespace Validator

/-- Compile-time metadata of a rule reference, as produced by a rule's
`compile()` phase: `{name, async, allowUndefineds}`. -/
structure Rule where
  name : String
  async : Bool
  allowUndefineds : Bool
deriving DecidableEq, Repr

mutual

/-- The schema tree: tagged union over literal (with subtype), object
(ordered children) and array (optional element schema `each`); every node
carries an ordered list of rule references. -/
inductive SchemaNode where
  | literal (subtype : String) (rules : List Rule)
  | object (rules : List Rule) (children : NodeList)
  | array (rules : List Rule) (each : Option SchemaNode)
deriving Repr

/-- The ordered mapping name → node of an object node's children. -/
inductive NodeList where
  | nil
  | cons (name : String) (node : SchemaNode) (rest : NodeList)
deriving Repr

end

/-- The rules carried directly by a node. -/
def SchemaNode.rules : SchemaNode → List Rule
  | .literal _ rs => rs
  | .object rs _ => rs
  | .array rs _ => rs

mutual

/-- `ArrayCompiler.hasAsyncChildren` (Array.ts lines 100-119): returns
whether the node itself, or any node below it (through an array's `each`
or an object's children), carries an async rule. -/
def hasAsyncChildren : SchemaNode → Bool
  | .literal _ rules => rules.any (fun rule => rule.async)
  | .array rules each =>
    if rules.any (fun rule => rule.async) then true
    else
      match each with
      | some e => hasAsyncChildren e
      | none => false
  | .object rules children =>
    if rules.any (fun rule => rule.async) then true
    else hasAsyncChildrenList children

/-- The `for (let child of children)` walk inside `hasAsyncChildren`:
true as soon as one child reports async, false past the last child. -/
def hasAsyncChildrenList : NodeList → Bool
  | .nil => false
  | .cons _ node rest =>
    if hasAsyncChildren node then true else hasAsyncChildrenList rest

end

mutual

/-- All rules carried by a node and every node below it, in traversal
order: the node's own rules, then (for arrays) the rules below `each`,
then (for objects) the rules below each child in declaration order. -/
def rulesBelow : SchemaNode → List Rule
  | .literal _ rules => rules
  | .array rules each =>
    rules ++ (match each with | some e => rulesBelow e | none => [])
  | .object rules children => rules ++ rulesBelowList children

/-- All rules below a list of object children. -/
def rulesBelowList : NodeList → List Rule
  | .nil => []
  | .cons _ node rest => rulesBelow node ++ rulesBelowList rest

end

mutual

/-- `hasAsyncChildren` answers exactly "some rule anywhere below is
asynchronous". -/
theorem hasAsyncChildren_eq_any_rulesBelow (n : SchemaNode) :
    hasAsyncChildren n = (rulesBelow n).any (fun rule => rule.async) := by
  match n with
  | .literal subtype rules => rfl
  | .array rules each =>
    match each with
    | some e =>
      rw [hasAsyncChildren, rulesBelow]
      rw [List.any_append, hasAsyncChildren_eq_any_rulesBelow e]
      cases rules.any (fun rule => rule.async) <;> simp
    | none =>
      rw [hasAsyncChildren, rulesBelow]
      cases h : rules.any (fun rule => rule.async) <;> simp [h]
  | .object rules children =>
    rw [hasAsyncChildren, rulesBelow]
    rw [List.any_append, hasAsyncChildrenList_eq_any_rulesBelowList children]
    cases rules.any (fun rule => rule.async) <;> simp

/-- List version of `hasAsyncChildren_eq_any_rulesBelow`. -/
theorem hasAsyncChildrenList_eq_any_rulesBelowList (l : NodeList) :
    hasAsyncChildrenList l = (rulesBelowList l).any (fun rule => rule.async) := by
  match l with
  | .nil => rfl
  | .cons name node rest =>
    rw [hasAsyncChildrenList, rulesBelowList, List.any_append]
    rw [hasAsyncChildren_eq_any_rulesBelow node,
      hasAsyncChildrenList_eq_any_rulesBelowList rest]
    cases (rulesBelow node).any (fun rule => rule.async) <;> simp

end

/-- A field location, as passed to the node compilers: a static name
(`type: literal`) or a runtime index variable (`type: identifier`). -/
inductive FieldType where
  | literal
  | identifier
deriving DecidableEq, Repr

/-- `ValidationField`: the `{name, type}` pair naming one field. -/
structure ValidationField where
  name : String
  type : FieldType
deriving DecidableEq, Repr

/-- Modelled from the spec (section 4.1): the Buffer accumulates generated
statements in order and tracks indentation.  Each emitted line is stored
with the indentation level at which it was written. -/
structure CompilerBuffer where
  lines : List (Nat × String)
  indentation : Nat
deriving DecidableEq, Repr

namespace CompilerBuffer

/-- Modelled from the spec: `writeStatement` appends at the current
indent. -/
def writeStatement (b : CompilerBuffer) (s : String) : CompilerBuffer :=
  { b with lines := b.lines ++ [(b.indentation, s)] }

/-- Modelled from the spec: `writeExpression` appends at the current
indent. -/
def writeExpression (b : CompilerBuffer) (s : String) : CompilerBuffer :=
  { b with lines := b.lines ++ [(b.indentation, s)] }

/-- Modelled from the spec: `indent` increases the nesting level. -/
def indent (b : CompilerBuffer) : CompilerBuffer :=
  { b with indentation := b.indentation + 1 }

/-- Modelled from the spec: `dedent` decreases the nesting level.
(Dedent below zero is a compiler bug per the spec; in this model it
truncates at zero, and in every emitted program dedents follow matching
indents so the truncation is never exercised.) -/
def dedent (b : CompilerBuffer) : CompilerBuffer :=
  { b with indentation := b.indentation - 1 }

/-- Modelled from the spec: `newLine` is cosmetic only, so it does not
change the statements or the nesting that this model tracks. -/
def newLine (b : CompilerBuffer) : CompilerBuffer :=
  b

/-- The empty buffer. -/
def empty : CompilerBuffer :=
  { lines := [], indentation := 0 }

end CompilerBuffer

/-- Compiler state: the per-compilation counters (Array.ts reads and
post-increments `arrayIndexVariableCounter` and `outVariableCounter`
through `this.compiler`). -/
structure Compiler where
  arrayIndexVariableCounter : Nat
  outVariableCounter : Nat
deriving DecidableEq, Repr

/-- Modelled from the spec (Pointer/Path Resolver, section 2): from a
field's location, the runtime expression locating the value — a quoted
string for a static name, the raw identifier for an index variable. -/
def pointerToExpression (f : ValidationField) : String :=
  match f.type with
  | .literal => "\x27" ++ f.name ++ "\x27"
  | .identifier => f.name

/-- Modelled from the spec: `Compiler.getVariableExistsName` names the
boolean flag recording whether the value bound to a variable exists. -/
def getVariableExistsName (variableName : String) : String :=
  variableName ++ "_exists"

/-- The references record handed to each node compiler: the enclosing
output variable, the variable referencing the parent value, and the
pointer of the enclosing fields. -/
structure References where
  outVariable : String
  referenceVariable : String
  parentPointer : List ValidationField
deriving DecidableEq, Repr

/-- Modelled from the spec (section 4.2): the Literal Node Compiler's
inputs — the field, the literal node data (subtype and rules) and the two
flags the array compiler sets on it. -/
structure LiteralCompiler where
  field : ValidationField
  subtype : String
  rules : List Rule
  disableOutVariable : Bool
  forceValueDeclaration : Bool
deriving DecidableEq, Repr

namespace LiteralCompiler

/-- Modelled from the spec: the name of the local binding the literal
compiler declares for the value at this field's location. -/
def variableName (lit : LiteralCompiler) : String :=
  "val_" ++ lit.field.name

/-- Modelled from the spec (section 4.2): declares a local binding for
the value, runs each rule in declared order (wrapping the checks in an
existence guard when some rule tolerates an absent value), and on success
assigns the value into the destination output — unless output has been
explicitly disabled for this node.  A node with no rules compiles to
nothing unless a value declaration is forced. -/
def compile (lit : LiteralCompiler) (refs : References)
    (buff : CompilerBuffer) : CompilerBuffer :=
  if lit.rules.isEmpty && !lit.forceValueDeclaration then
    buff
  else
    let vn := lit.variableName
    let b := buff.writeExpression
      ("const " ++ vn ++ " = " ++ refs.referenceVariable ++ "[" ++
        pointerToExpression lit.field ++ "]")
    let b :=
      if lit.rules.any (fun rule => rule.allowUndefineds) then
        let b := (b.writeStatement
          ("if (" ++ getVariableExistsName vn ++ ") \x7b")).indent
        let b := lit.rules.foldl
          (fun b rule => b.writeStatement
            ("validations." ++ rule.name ++ ".validate(" ++ vn ++ ")")) b
        b.dedent.writeStatement "\x7d"
      else
        lit.rules.foldl
          (fun b rule => b.writeStatement
            ("validations." ++ rule.name ++ ".validate(" ++ vn ++ ")")) b
    if lit.disableOutVariable then b
    else
      b.writeExpression
        (refs.outVariable ++ "[" ++ pointerToExpression lit.field ++ "] = " ++ vn)

end LiteralCompiler

namespace ArrayCompiler

/-- The statement template of `declareOutVariable` (Array.ts line 45):
the out variable, bound to an empty array that is simultaneously linked
into the parent output at this field's reference expression. -/
def outDeclarationLine (field : ValidationField) (refs : References)
    (outVariable : String) : String :=
  "const " ++ outVariable ++ " = " ++ refs.outVariable ++ "[" ++
    pointerToExpression field ++ "] = []"

/-- `ArrayCompiler.declareOutVariable` (Array.ts lines 42-47). -/
def declareOutVariable (field : ValidationField) (refs : References)
    (buff : CompilerBuffer) (outVariable : String) : CompilerBuffer :=
  buff.writeExpression (outDeclarationLine field refs outVariable)

/-- The statement template of `startIfGuard` (Array.ts line 55): the
value exists and `Array.isArray` holds. -/
def ifGuardLine (variableName : String) : String :=
  "if (" ++ getVariableExistsName variableName ++ " && Array.isArray(" ++
    variableName ++ ")) \x7b"

/-- `ArrayCompiler.startIfGuard` (Array.ts lines 53-58): the if statement
ensuring the runtime value exists and is an array before validating its
members. -/
def startIfGuard (buff : CompilerBuffer) (variableName : String) : CompilerBuffer :=
  (buff.writeStatement (ifGuardLine variableName)).indent

/-- `ArrayCompiler.endIfGuard` (Array.ts lines 63-66). -/
def endIfGuard (buff : CompilerBuffer) : CompilerBuffer :=
  buff.dedent.writeStatement "\x7d"

/-- The statement template of `startAsyncForLoop` (Array.ts line 73):
the order-preserving `for of` iteration over the array's entries. -/
def asyncForLoopLine (variableName indexVariable : String) : String :=
  "for (let [" ++ indexVariable ++ "] of " ++ variableName ++ ".entries()) \x7b"

/-- `ArrayCompiler.startAsyncForLoop` (Array.ts lines 72-75): the
`for of` loop over the array's entries, used when one or more children
rules are async. -/
def startAsyncForLoop (buff : CompilerBuffer) (variableName indexVariable : String) :
    CompilerBuffer :=
  (buff.writeStatement (asyncForLoopLine variableName indexVariable)).indent

/-- The statement template of `startForLoop` (Array.ts line 82): the
plain indexed for loop. -/
def forLoopLine (variableName indexVariable : String) : String :=
  "for (let " ++ indexVariable ++ " = 0; " ++ indexVariable ++ " < " ++
    variableName ++ ".length; " ++ indexVariable ++ "++) \x7b"

/-- `ArrayCompiler.startForLoop` (Array.ts lines 80-85): the plain
indexed for loop over the array. -/
def startForLoop (buff : CompilerBuffer) (variableName indexVariable : String) :
    CompilerBuffer :=
  (buff.writeStatement (forLoopLine variableName indexVariable)).indent

/-- `ArrayCompiler.endForLoop` (Array.ts lines 90-93). -/
def endForLoop (buff : CompilerBuffer) : CompilerBuffer :=
  buff.dedent.writeStatement "\x7d"

/-- The recursive dispatch `this.compiler.compileNode(field, node, buff,
pointer, referenceVariable, outVariable)`.  The orchestrator is not part
of the given sources, so the element compilation is kept abstract: any
function of those arguments (threading the compiler counters) may stand
for it. -/
def ChildCompiler : Type :=
  ValidationField → SchemaNode → CompilerBuffer → List ValidationField →
    String → String → Compiler → CompilerBuffer × Compiler

/-- `ArrayCompiler.compile` (Array.ts lines 124-203), translated
statement by statement: early return on a node with neither rules nor
`each`; the literal step with subtype `array`, `disableOutVariable` set
to the truthiness of `each` and `forceValueDeclaration` on; early return
when there is no `each`; otherwise the guard, the fresh index and out
variables drawn from the post-incremented counters, the out-variable
declaration, the loop form chosen by `hasAsyncChildren`, the recursive
dispatch on the element schema, and the two closers. -/
def compile (cc : ChildCompiler) (field : ValidationField) (rules : List Rule)
    (each : Option SchemaNode) (refs : References)
    (buff : CompilerBuffer) (comp : Compiler) : CompilerBuffer × Compiler :=
  if rules.isEmpty && each.isNone then
    (buff, comp)
  else
    let literal : LiteralCompiler :=
      { field := field
        subtype := "array"
        rules := rules
        disableOutVariable := each.isSome
        forceValueDeclaration := true }
    let buff := literal.compile refs buff
    match each with
    | none => (buff, comp)
    | some eachNode =>
      let hasAsync := hasAsyncChildren eachNode
      let buff := buff.newLine
      let buff := startIfGuard buff literal.variableName
      let indexVariable := "index_" ++ toString comp.arrayIndexVariableCounter
      let comp : Compiler :=
        { comp with arrayIndexVariableCounter := comp.arrayIndexVariableCounter + 1 }
      let outVariable := "out_" ++ toString comp.outVariableCounter
      let comp : Compiler :=
        { comp with outVariableCounter := comp.outVariableCounter + 1 }
      let buff := declareOutVariable field refs buff outVariable
      let buff :=
        if hasAsync then startAsyncForLoop buff literal.variableName indexVariable
        else startForLoop buff literal.variableName indexVariable
      let buff := buff.newLine
      let res := cc ⟨indexVariable, .identifier⟩ eachNode buff
        (refs.parentPointer ++ [field]) literal.variableName outVariable comp
      (endIfGuard (endForLoop res.1), res.2)

end ArrayCompiler

/-! ## Buffer lemmas -/

namespace CompilerBuffer

@[simp] theorem writeStatement_lines (b : CompilerBuffer) (s : String) :
    (b.writeStatement s).lines = b.lines ++ [(b.indentation, s)] := rfl

@[simp] theorem writeStatement_indentation (b : CompilerBuffer) (s : String) :
    (b.writeStatement s).indentation = b.indentation := rfl

@[simp] theorem writeExpression_lines (b : CompilerBuffer) (s : String) :
    (b.writeExpression s).lines = b.lines ++ [(b.indentation, s)] := rfl

@[simp] theorem writeExpression_indentation (b : CompilerBuffer) (s : String) :
    (b.writeExpression s).indentation = b.indentation := rfl

@[simp] theorem indent_lines (b : CompilerBuffer) : b.indent.lines = b.lines := rfl

@[simp] theorem indent_indentation (b : CompilerBuffer) :
    b.indent.indentation = b.indentation + 1 := rfl

@[simp] theorem dedent_lines (b : CompilerBuffer) : b.dedent.lines = b.lines := rfl

@[simp] theorem dedent_indentation (b : CompilerBuffer) :
    b.dedent.indentation = b.indentation - 1 := rfl

@[simp] theorem newLine_eq (b : CompilerBuffer) : b.newLine = b := rfl

end CompilerBuffer

/-- The rule-chain fold of the literal compiler appends one statement per
rule, at the current indent, leaving the indent unchanged. -/
theorem foldl_writeStatement_eq (rs : List Rule) (f : Rule → String)
    (b : CompilerBuffer) :
    rs.foldl (fun b rule => b.writeStatement (f rule)) b =
      { lines := b.lines ++ rs.map (fun rule => (b.indentation, f rule)),
        indentation := b.indentation } := by
  induction rs generalizing b with
  | nil => simp
  | cons hd tl ih =>
    rw [List.foldl_cons, ih]
    simp [CompilerBuffer.writeStatement]

/-- The lines the literal compiler contributes, computed explicitly:
the value declaration, then the rule chain (wrapped in an existence
guard when some rule allows undefineds), then — only when the out
variable is not disabled — the pass-through output assignment. -/
def litEmittedLines (lit : LiteralCompiler) (refs : References) (d : Nat) :
    List (Nat × String) :=
  if lit.rules.isEmpty && !lit.forceValueDeclaration then []
  else
    let vn := lit.variableName
    let decl : List (Nat × String) :=
      [(d, "const " ++ vn ++ " = " ++ refs.referenceVariable ++ "[" ++
        pointerToExpression lit.field ++ "]")]
    let chainStmt := fun (rule : Rule) =>
      "validations." ++ rule.name ++ ".validate(" ++ vn ++ ")"
    let chain : List (Nat × String) :=
      if lit.rules.any (fun rule => rule.allowUndefineds) then
        [(d, "if (" ++ getVariableExistsName vn ++ ") \x7b")] ++
          lit.rules.map (fun rule => (d + 1, chainStmt rule)) ++ [(d, "\x7d")]
      else
        lit.rules.map (fun rule => (d, chainStmt rule))
    let assign : List (Nat × String) :=
      if lit.disableOutVariable then []
      else
        [(d, refs.outVariable ++ "[" ++ pointerToExpression lit.field ++ "] = " ++ vn)]
    decl ++ chain ++ assign

/-- `LiteralCompiler.compile` appends exactly `litEmittedLines` and
leaves the indentation unchanged. -/
theorem LiteralCompiler.compile_eq (lit : LiteralCompiler) (refs : References)
    (buff : CompilerBuffer) :
    lit.compile refs buff =
      { lines := buff.lines ++ litEmittedLines lit refs buff.indentation,
        indentation := buff.indentation } := by
  by_cases h0 : lit.rules.isEmpty && !lit.forceValueDeclaration
  · simp [LiteralCompiler.compile, litEmittedLines, h0]
  · by_cases hg : lit.rules.any (fun rule => rule.allowUndefineds) <;>
      by_cases hd : lit.disableOutVariable <;>
      · simp only [LiteralCompiler.compile, h0, hg, hd, Bool.not_eq_true,
          Bool.false_eq_true, ite_true, ite_false, if_true, if_false]
        simp only [foldl_writeStatement_eq]
        simp [litEmittedLines, h0, hg, hd, CompilerBuffer.writeStatement,
          CompilerBuffer.writeExpression, CompilerBuffer.indent,
          CompilerBuffer.dedent]

/-! ## Decomposition of `ArrayCompiler.compile` -/

/-- `b'` extends `b`: same indentation, and the lines of `b` form a
prefix of those of `b'`.  Every compiler step in this development, and
the recursive dispatch in particular, only appends lines and restores
the indentation it found. -/
def BufferExtends (b b' : CompilerBuffer) : Prop :=
  b'.indentation = b.indentation ∧ ∃ s, b'.lines = b.lines ++ s

/-- The recursive dispatch only ever appends to the buffer and leaves
the indentation as it found it. -/
def ChildCompilerOk (cc : ArrayCompiler.ChildCompiler) : Prop :=
  ∀ f n b p rv ov c, BufferExtends b ((cc f n b p rv ov c).1)

/-- The literal compiler the array compiler constructs for its
container-level step, with the out variable disabled or not. -/
def arrayLiteral (field : ValidationField) (rules : List Rule)
    (disable : Bool) : LiteralCompiler :=
  { field := field
    subtype := "array"
    rules := rules
    disableOutVariable := disable
    forceValueDeclaration := true }

/-- Full decomposition of `ArrayCompiler.compile` on a node with an
element schema: the literal step (out variable disabled), the if guard,
the fresh index and out variables drawn from the post-incremented
counters, the out-variable declaration, the loop header selected by
`hasAsyncChildren`, the recursive dispatch, and the two closers. -/
theorem ArrayCompiler.compile_some_eq (cc : ArrayCompiler.ChildCompiler)
    (field : ValidationField) (rules : List Rule) (e : SchemaNode)
    (refs : References) (buff : CompilerBuffer) (comp : Compiler) :
    ArrayCompiler.compile cc field rules (some e) refs buff comp =
      (let lit := arrayLiteral field rules true
       let vn := lit.variableName
       let idx := "index_" ++ toString comp.arrayIndexVariableCounter
       let ov := "out_" ++ toString comp.outVariableCounter
       let comp₂ : Compiler :=
         ⟨comp.arrayIndexVariableCounter + 1, comp.outVariableCounter + 1⟩
       let b₄ : CompilerBuffer :=
         { lines := buff.lines ++ litEmittedLines lit refs buff.indentation ++
             [(buff.indentation, ArrayCompiler.ifGuardLine vn),
              (buff.indentation + 1, ArrayCompiler.outDeclarationLine field refs ov),
              (buff.indentation + 1,
                if hasAsyncChildren e then ArrayCompiler.asyncForLoopLine vn idx
                else ArrayCompiler.forLoopLine vn idx)],
           indentation := buff.indentation + 2 }
       let res := cc ⟨idx, .identifier⟩ e b₄ (refs.parentPointer ++ [field]) vn ov comp₂
       (ArrayCompiler.endIfGuard (ArrayCompiler.endForLoop res.1), res.2)) := by
  cases hA : hasAsyncChildren e <;>
    simp [ArrayCompiler.compile, hA, LiteralCompiler.compile_eq, arrayLiteral,
      ArrayCompiler.startIfGuard, ArrayCompiler.declareOutVariable,
      ArrayCompiler.startForLoop, ArrayCompiler.startAsyncForLoop,
      CompilerBuffer.writeStatement, CompilerBuffer.writeExpression,
      CompilerBuffer.indent, CompilerBuffer.newLine]

/-- Decomposition of `ArrayCompiler.compile` on a node with rules but no
element schema: only the literal step runs, with the out variable
enabled, and the counters are untouched. -/
theorem ArrayCompiler.compile_none_eq (cc : ArrayCompiler.ChildCompiler)
    (field : ValidationField) (rules : List Rule)
    (refs : References) (buff : CompilerBuffer) (comp : Compiler)
    (h : rules ≠ []) :
    ArrayCompiler.compile cc field rules none refs buff comp =
      ({ lines := buff.lines ++
           litEmittedLines (arrayLiteral field rules false) refs buff.indentation,
         indentation := buff.indentation }, comp) := by
  have h' : rules.isEmpty = false := by
    cases rules with
    | nil => exact absurd rfl h
    | cons hd tl => rfl
  simp [ArrayCompiler.compile, h', LiteralCompiler.compile_eq, arrayLiteral]

/-- Enabling the out variable on the container-level literal step adds
exactly one line — the pass-through output assignment — after the lines
of the disabled form; nothing else changes. -/
theorem litEmittedLines_enable_eq (field : ValidationField) (rules : List Rule)
    (refs : References) (d : Nat) :
    litEmittedLines (arrayLiteral field rules false) refs d =
      litEmittedLines (arrayLiteral field rules true) refs d ++
        [(d, refs.outVariable ++ "[" ++ pointerToExpression field ++ "] = " ++
          (arrayLiteral field rules true).variableName)] := by
  by_cases hg : rules.any (fun rule => rule.allowUndefineds) <;>
    simp [litEmittedLines, arrayLiteral, LiteralCompiler.variableName, hg]

/-- Shape of the lines emitted for a node with an element schema, given
that the recursive dispatch only appends: the container-level literal
lines, the guard, the out declaration, the loop header selected by
`hasAsyncChildren`, the element lines, and the two closers — with the
original indentation restored. -/
theorem ArrayCompiler.compile_some_lines (cc : ArrayCompiler.ChildCompiler)
    (hcc : ChildCompilerOk cc) (field : ValidationField) (rules : List Rule)
    (e : SchemaNode) (refs : References) (buff : CompilerBuffer) (comp : Compiler) :
    ∃ childLines,
      (ArrayCompiler.compile cc field rules (some e) refs buff comp).1 =
        (let vn := (arrayLiteral field rules true).variableName
         let idx := "index_" ++ toString comp.arrayIndexVariableCounter
         let ov := "out_" ++ toString comp.outVariableCounter
         { lines := buff.lines ++
             litEmittedLines (arrayLiteral field rules true) refs buff.indentation ++
             [(buff.indentation, ArrayCompiler.ifGuardLine vn),
              (buff.indentation + 1, ArrayCompiler.outDeclarationLine field refs ov),
              (buff.indentation + 1,
                if hasAsyncChildren e then ArrayCompiler.asyncForLoopLine vn idx
                else ArrayCompiler.forLoopLine vn idx)] ++
             childLines ++
             [(buff.indentation + 1, "\x7d"), (buff.indentation, "\x7d")],
           indentation := buff.indentation }) := by
  rw [ArrayCompiler.compile_some_eq]
  obtain ⟨hind, s, hs⟩ := hcc
    ⟨"index_" ++ toString comp.arrayIndexVariableCounter, .identifier⟩ e
    { lines := buff.lines ++
        litEmittedLines (arrayLiteral field rules true) refs buff.indentation ++
        [(buff.indentation, ArrayCompiler.ifGuardLine
            (arrayLiteral field rules true).variableName),
         (buff.indentation + 1, ArrayCompiler.outDeclarationLine field refs
            ("out_" ++ toString comp.outVariableCounter)),
         (buff.indentation + 1,
           if hasAsyncChildren e then ArrayCompiler.asyncForLoopLine
              (arrayLiteral field rules true).variableName
              ("index_" ++ toString comp.arrayIndexVariableCounter)
           else ArrayCompiler.forLoopLine
              (arrayLiteral field rules true).variableName
              ("index_" ++ toString comp.arrayIndexVariableCounter))],
      indentation := buff.indentation + 2 }
    (refs.parentPointer ++ [field]) (arrayLiteral field rules true).variableName
    ("out_" ++ toString comp.outVariableCounter)
    ⟨comp.arrayIndexVariableCounter + 1, comp.outVariableCounter + 1⟩
  refine ⟨s, ?_⟩
  simp only [ArrayCompiler.endForLoop, ArrayCompiler.endIfGuard]
  simp only [List.append_assoc] at hs hind
  simp [hs, hind, CompilerBuffer.dedent, CompilerBuffer.writeStatement]

/-- A trivial recursive dispatch (compiles an element to nothing); used
to instantiate the universally quantified dispatch in witnesses. -/
def idChildCompiler : ArrayCompiler.ChildCompiler :=
  fun _ _ b _ _ _ c => (b, c)

/-- The trivial dispatch only appends (nothing) and keeps the indent. -/
theorem idChildCompiler_ok : ChildCompilerOk idChildCompiler :=
  fun _ _ b _ _ _ _ => ⟨rfl, [], by simp [idChildCompiler]⟩

/-- Different name families never collide: an index variable name is
never equal to an out variable name, whatever the counters. -/
theorem indexName_ne_outName (a b : Nat) :
    ("index_" ++ toString a) ≠ ("out_" ++ toString b) := by
  intro h
  have h2 := congrArg (fun s => s.data) h
  simp [String.data_append] at h2

/-! ## Claims about `ArrayCompiler.compile` -/

/-- C1: for every array node with an element schema, `compile` selects
the iteration form exactly once at compile time: the single emitted loop
header is the order-preserving `for of` form over the entries if and
only if some rule anywhere below the element schema (through its own
rules, nested arrays' element schemas and object children, as
`rulesBelow` collects them) is asynchronous, and the plain indexed form
otherwise.  The choice is a fixed line of the emitted code, a function
of the schema alone, never re-evaluated per element at runtime. -/
theorem claim_C1 (cc : ArrayCompiler.ChildCompiler) (hcc : ChildCompilerOk cc)
    (field : ValidationField) (rules : List Rule) (e : SchemaNode)
    (refs : References) (buff : CompilerBuffer) (comp : Compiler) :
    (∃ childLines,
      (ArrayCompiler.compile cc field rules (some e) refs buff comp).1 =
        { lines := buff.lines ++
            litEmittedLines (arrayLiteral field rules true) refs buff.indentation ++
            [(buff.indentation,
               ArrayCompiler.ifGuardLine (arrayLiteral field rules true).variableName),
             (buff.indentation + 1,
               ArrayCompiler.outDeclarationLine field refs
                 ("out_" ++ toString comp.outVariableCounter)),
             (buff.indentation + 1,
               if hasAsyncChildren e then
                 ArrayCompiler.asyncForLoopLine
                   (arrayLiteral field rules true).variableName
                   ("index_" ++ toString comp.arrayIndexVariableCounter)
               else
                 ArrayCompiler.forLoopLine
                   (arrayLiteral field rules true).variableName
                   ("index_" ++ toString comp.arrayIndexVariableCounter))] ++
            childLines ++
            [(buff.indentation + 1, "\x7d"), (buff.indentation, "\x7d")],
          indentation := buff.indentation }) ∧
    hasAsyncChildren e = (rulesBelow e).any (fun rule => rule.async) := by
  exact ⟨ArrayCompiler.compile_some_lines cc hcc field rules e refs buff comp,
    hasAsyncChildren_eq_any_rulesBelow e⟩

/-- Witness for C1 at a concrete array-of-string schema whose element
rule is asynchronous: the async `for of` header is emitted. -/
theorem claim_C1_witness :
    (∃ childLines,
      (ArrayCompiler.compile idChildCompiler ⟨"items", .literal⟩ []
          (some (.literal "string" [⟨"string", true, false⟩]))
          ⟨"out", "root", []⟩ CompilerBuffer.empty ⟨0, 0⟩).1 =
        { lines := CompilerBuffer.empty.lines ++
            litEmittedLines (arrayLiteral ⟨"items", .literal⟩ [] true)
              ⟨"out", "root", []⟩ CompilerBuffer.empty.indentation ++
            [(CompilerBuffer.empty.indentation,
               ArrayCompiler.ifGuardLine
                 (arrayLiteral ⟨"items", .literal⟩ [] true).variableName),
             (CompilerBuffer.empty.indentation + 1,
               ArrayCompiler.outDeclarationLine ⟨"items", .literal⟩
                 ⟨"out", "root", []⟩ ("out_" ++ toString (0 : Nat))),
             (CompilerBuffer.empty.indentation + 1,
               if hasAsyncChildren (.literal "string" [⟨"string", true, false⟩]) then
                 ArrayCompiler.asyncForLoopLine
                   (arrayLiteral ⟨"items", .literal⟩ [] true).variableName
                   ("index_" ++ toString (0 : Nat))
               else
                 ArrayCompiler.forLoopLine
                   (arrayLiteral ⟨"items", .literal⟩ [] true).variableName
                   ("index_" ++ toString (0 : Nat)))] ++
            childLines ++
            [(CompilerBuffer.empty.indentation + 1, "\x7d"),
             (CompilerBuffer.empty.indentation, "\x7d")],
          indentation := CompilerBuffer.empty.indentation }) ∧
    hasAsyncChildren (.literal "string" [⟨"string", true, false⟩]) =
      (rulesBelow (.literal "string" [⟨"string", true, false⟩])).any
        (fun rule => rule.async) :=
  claim_C1 idChildCompiler idChildCompiler_ok ⟨"items", .literal⟩ []
    (.literal "string" [⟨"string", true, false⟩]) ⟨"out", "root", []⟩
    CompilerBuffer.empty ⟨0, 0⟩

/-- C2: the container-level output assignment of the literal step is
suppressed exactly when the node has an element schema.  With `each`
present, the container-level portion of the emitted code is the
disabled-out-variable literal lines, followed directly by the element
guard — no container assignment; with `each` absent, the emitted code is
those same literal lines plus exactly one extra line, the assignment
passing the array value through to the output unmodified. -/
theorem claim_C2 (cc : ArrayCompiler.ChildCompiler) (hcc : ChildCompilerOk cc)
    (field : ValidationField) (rules : List Rule) (e : SchemaNode)
    (refs : References) (buff : CompilerBuffer) (comp : Compiler)
    (hrules : rules ≠ []) :
    (∃ childLines,
      (ArrayCompiler.compile cc field rules (some e) refs buff comp).1 =
        { lines := buff.lines ++
            litEmittedLines (arrayLiteral field rules true) refs buff.indentation ++
            [(buff.indentation,
               ArrayCompiler.ifGuardLine (arrayLiteral field rules true).variableName),
             (buff.indentation + 1,
               ArrayCompiler.outDeclarationLine field refs
                 ("out_" ++ toString comp.outVariableCounter)),
             (buff.indentation + 1,
               if hasAsyncChildren e then
                 ArrayCompiler.asyncForLoopLine
                   (arrayLiteral field rules true).variableName
                   ("index_" ++ toString comp.arrayIndexVariableCounter)
               else
                 ArrayCompiler.forLoopLine
                   (arrayLiteral field rules true).variableName
                   ("index_" ++ toString comp.arrayIndexVariableCounter))] ++
            childLines ++
            [(buff.indentation + 1, "\x7d"), (buff.indentation, "\x7d")],
          indentation := buff.indentation }) ∧
    ArrayCompiler.compile cc field rules none refs buff comp =
      ({ lines := buff.lines ++
           litEmittedLines (arrayLiteral field rules true) refs buff.indentation ++
           [(buff.indentation,
              refs.outVariable ++ "[" ++ pointerToExpression field ++ "] = " ++
                (arrayLiteral field rules true).variableName)],
         indentation := buff.indentation }, comp) := by
  refine ⟨ArrayCompiler.compile_some_lines cc hcc field rules e refs buff comp, ?_⟩
  rw [ArrayCompiler.compile_none_eq cc field rules refs buff comp hrules]
  simp [litEmittedLines_enable_eq]

/-- Witness for C2 at a concrete node carrying one `array` rule: with an
element schema the literal lines are followed by the guard, without one
they are followed by the pass-through assignment. -/
theorem claim_C2_witness :
    (∃ childLines,
      (ArrayCompiler.compile idChildCompiler ⟨"items", .literal⟩
          [⟨"array", false, false⟩] (some (.literal "string" []))
          ⟨"out", "root", []⟩ CompilerBuffer.empty ⟨0, 0⟩).1 =
        { lines := CompilerBuffer.empty.lines ++
            litEmittedLines
              (arrayLiteral ⟨"items", .literal⟩ [⟨"array", false, false⟩] true)
              ⟨"out", "root", []⟩ CompilerBuffer.empty.indentation ++
            [(CompilerBuffer.empty.indentation,
               ArrayCompiler.ifGuardLine
                 (arrayLiteral ⟨"items", .literal⟩ [⟨"array", false, false⟩]
                   true).variableName),
             (CompilerBuffer.empty.indentation + 1,
               ArrayCompiler.outDeclarationLine ⟨"items", .literal⟩
                 ⟨"out", "root", []⟩ ("out_" ++ toString (0 : Nat))),
             (CompilerBuffer.empty.indentation + 1,
               if hasAsyncChildren (.literal "string" []) then
                 ArrayCompiler.asyncForLoopLine
                   (arrayLiteral ⟨"items", .literal⟩ [⟨"array", false, false⟩]
                     true).variableName
                   ("index_" ++ toString (0 : Nat))
               else
                 ArrayCompiler.forLoopLine
                   (arrayLiteral ⟨"items", .literal⟩ [⟨"array", false, false⟩]
                     true).variableName
                   ("index_" ++ toString (0 : Nat)))] ++
            childLines ++
            [(CompilerBuffer.empty.indentation + 1, "\x7d"),
             (CompilerBuffer.empty.indentation, "\x7d")],
          indentation := CompilerBuffer.empty.indentation }) ∧
    ArrayCompiler.compile idChildCompiler ⟨"items", .literal⟩
        [⟨"array", false, false⟩] none ⟨"out", "root", []⟩
        CompilerBuffer.empty ⟨0, 0⟩ =
      ({ lines := CompilerBuffer.empty.lines ++
           litEmittedLines
             (arrayLiteral ⟨"items", .literal⟩ [⟨"array", false, false⟩] true)
             ⟨"out", "root", []⟩ CompilerBuffer.empty.indentation ++
           [(CompilerBuffer.empty.indentation,
              "out" ++ "[" ++ pointerToExpression ⟨"items", .literal⟩ ++ "] = " ++
                (arrayLiteral ⟨"items", .literal⟩ [⟨"array", false, false⟩]
                  true).variableName)],
         indentation := CompilerBuffer.empty.indentation }, ⟨0, 0⟩) :=
  claim_C2 idChildCompiler idChildCompiler_ok ⟨"items", .literal⟩
    [⟨"array", false, false⟩] (.literal "string" []) ⟨"out", "root", []⟩
    CompilerBuffer.empty ⟨0, 0⟩ (by simp)

/-- C6: for every array node with an element schema, `compile` declares,
inside the array guard and before the element loop and dispatch, a fresh
index variable and a fresh output accumulator named from the
per-compilation counters; the accumulator is initialized to the empty
array and simultaneously linked into the parent output at this field's
reference expression, and the recursive dispatch receives the compiler
state with both counters incremented, so the same names are never handed
out again in this compile pass; the two name families are disjoint. -/
theorem claim_C6 (cc : ArrayCompiler.ChildCompiler)
    (field : ValidationField) (rules : List Rule) (e : SchemaNode)
    (refs : References) (buff : CompilerBuffer) (comp : Compiler) :
    (ArrayCompiler.compile cc field rules (some e) refs buff comp =
      (let lit := arrayLiteral field rules true
       let vn := lit.variableName
       let idx := "index_" ++ toString comp.arrayIndexVariableCounter
       let ov := "out_" ++ toString comp.outVariableCounter
       let comp₂ : Compiler :=
         ⟨comp.arrayIndexVariableCounter + 1, comp.outVariableCounter + 1⟩
       let b₄ : CompilerBuffer :=
         { lines := buff.lines ++ litEmittedLines lit refs buff.indentation ++
             [(buff.indentation, ArrayCompiler.ifGuardLine vn),
              (buff.indentation + 1, ArrayCompiler.outDeclarationLine field refs ov),
              (buff.indentation + 1,
                if hasAsyncChildren e then ArrayCompiler.asyncForLoopLine vn idx
                else ArrayCompiler.forLoopLine vn idx)],
           indentation := buff.indentation + 2 }
       let res := cc ⟨idx, .identifier⟩ e b₄ (refs.parentPointer ++ [field]) vn ov comp₂
       (ArrayCompiler.endIfGuard (ArrayCompiler.endForLoop res.1), res.2))) ∧
    ArrayCompiler.outDeclarationLine field refs
        ("out_" ++ toString comp.outVariableCounter) =
      "const " ++ ("out_" ++ toString comp.outVariableCounter) ++ " = " ++
        refs.outVariable ++ "[" ++ pointerToExpression field ++ "] = []" ∧
    ("index_" ++ toString comp.arrayIndexVariableCounter) ≠
      ("out_" ++ toString comp.outVariableCounter) := by
  exact ⟨ArrayCompiler.compile_some_eq cc field rules e refs buff comp, rfl,
    indexName_ne_outName comp.arrayIndexVariableCounter comp.outVariableCounter⟩

/-- C7: an array node with no rules and no element schema compiles to
nothing: the buffer and the compiler counters come back exactly as they
went in. -/
theorem claim_C7 (cc : ArrayCompiler.ChildCompiler) (field : ValidationField)
    (refs : References) (buff : CompilerBuffer) (comp : Compiler) :
    ArrayCompiler.compile cc field [] none refs buff comp = (buff, comp) := by
  simp [ArrayCompiler.compile]

/-- C8: `compile` restores the indentation it found, for every node
shape, as long as the recursive dispatch does the same. -/
theorem claim_C8 (cc : ArrayCompiler.ChildCompiler) (hcc : ChildCompilerOk cc)
    (field : ValidationField) (rules : List Rule) (each : Option SchemaNode)
    (refs : References) (buff : CompilerBuffer) (comp : Compiler) :
    (ArrayCompiler.compile cc field rules each refs buff comp).1.indentation =
      buff.indentation := by
  cases each with
  | some e =>
    obtain ⟨L, hL⟩ := ArrayCompiler.compile_some_lines cc hcc field rules e refs buff comp
    rw [hL]
  | none =>
    cases rules with
    | nil => simp [ArrayCompiler.compile]
    | cons hd tl =>
      rw [ArrayCompiler.compile_none_eq cc field (hd :: tl) refs buff comp (by simp)]

/-- Witness for C8 at a concrete nested schema and a nonzero starting
indentation. -/
theorem claim_C8_witness :
    (ArrayCompiler.compile idChildCompiler ⟨"items", .literal⟩
        [⟨"array", false, false⟩]
        (some (.object [⟨"object", false, false⟩] (.cons "name"
          (.literal "string" [⟨"string", false, false⟩]) .nil)))
        ⟨"out", "root", []⟩ ⟨[], 3⟩ ⟨5, 7⟩).1.indentation = 3 :=
  claim_C8 idChildCompiler idChildCompiler_ok ⟨"items", .literal⟩
    [⟨"array", false, false⟩]
    (some (.object [⟨"object", false, false⟩] (.cons "name"
      (.literal "string" [⟨"string", false, false⟩]) .nil)))
    ⟨"out", "root", []⟩ ⟨[], 3⟩ ⟨5, 7⟩

/-! ## Runtime value model and the object/string rules -/

/-- The host runtime values a validated input can take.  A function may
carry keyed properties, mirroring host functions that hold fields. -/
inductive JSValue where
  | undefined
  | null
  | boolean (b : Bool)
  | number (n : Int)
  | string (s : String)
  | array (elems : List JSValue)
  | object (fields : List (String × JSValue))
  | function (props : List (String × JSValue))

/-- The host `typeof` operator: `null` and arrays answer `object`;
functions answer `function`. -/
def typeof : JSValue → String
  | .undefined => "undefined"
  | .null => "object"
  | .boolean _ => "boolean"
  | .number _ => "number"
  | .string _ => "string"
  | .array _ => "object"
  | .object _ => "object"
  | .function _ => "function"

namespace JSValue

/-- The host `Array.isArray`. -/
def isArray : JSValue → Bool
  | .array _ => true
  | _ => false

/-- Strict equality against the `null` literal. -/
def isNull : JSValue → Bool
  | .null => true
  | _ => false

/-- A plain keyed container: the semantic notion the `object` rule is
meant to accept — a keyed object, not an array, not `null`, not a
function. -/
def isPlainKeyedContainer : JSValue → Bool
  | .object _ => true
  | _ => false

/-- A textual value: the semantic notion the `string` rule is meant to
accept. -/
def isTextual : JSValue → Bool
  | .string _ => true
  | _ => false

end JSValue

/-- One violation as handed to the error reporter:
`report(pointer, ruleName, message, arrayExpressionPointer)`. -/
structure ErrorReport where
  pointer : String
  rule : String
  message : String
  arrayExpressionPointer : Option String
deriving DecidableEq, Repr

/-- The slice of the validation context a rule's runtime phase reads:
the current pointer and the optional array expression pointer.  The
error reporter is modelled by returning the list of reports a call
makes. -/
structure ValidationContext where
  pointer : String
  arrayExpressionPointer : Option String
deriving DecidableEq, Repr

namespace ObjectRule

/-- `DEFAULT_MESSAGE` of the object rule source. -/
def DEFAULT_MESSAGE : String := "object validation failed"

/-- The object rule's compile-time phase:
`{allowUndefineds: false, async: false, name: 'object'}`. -/
def compile : Rule :=
  { name := "object", async := false, allowUndefineds := false }

/-- The object rule's `validate`: reports one violation when
`typeof value !== 'object' || Array.isArray(value) || value === null`,
and reports nothing otherwise.  The call always returns normally; its
reports are its only effect. -/
def validate (value : JSValue) (ctx : ValidationContext) : List ErrorReport :=
  if typeof value != "object" || value.isArray || value.isNull then
    [{ pointer := ctx.pointer
       rule := "object"
       message := DEFAULT_MESSAGE
       arrayExpressionPointer := ctx.arrayExpressionPointer }]
  else
    []

end ObjectRule

namespace StringRule

/-- `DEFAULT_MESSAGE` of the string rule source. -/
def DEFAULT_MESSAGE : String := "string validation failed"

/-- The string rule's compile-time phase:
`{allowUndefineds: false, async: false, name: 'string'}`. -/
def compile : Rule :=
  { name := "string", async := false, allowUndefineds := false }

/-- The string rule's `validate`: reports one violation when
`typeof value !== 'string'`, and reports nothing otherwise.  The call
always returns normally; its reports are its only effect. -/
def validate (value : JSValue) (ctx : ValidationContext) : List ErrorReport :=
  if typeof value != "string" then
    [{ pointer := ctx.pointer
       rule := "string"
       message := DEFAULT_MESSAGE
       arrayExpressionPointer := ctx.arrayExpressionPointer }]
  else
    []

end StringRule

/-- C4: the object rule reports exactly one violation — rule name
`object`, the current pointer, the default message — precisely when the
value is not a plain keyed container (`typeof` not `object`, or an
array, or `null`), and reports nothing otherwise. -/
theorem claim_C4 (v : JSValue) (ctx : ValidationContext) :
    (ObjectRule.validate v ctx =
        [{ pointer := ctx.pointer
           rule := "object"
           message := ObjectRule.DEFAULT_MESSAGE
           arrayExpressionPointer := ctx.arrayExpressionPointer }] ↔
      (typeof v ≠ "object" ∨ v.isArray = true ∨ v.isNull = true)) ∧
    (ObjectRule.validate v ctx = [] ↔ v.isPlainKeyedContainer = true) := by
  cases v <;>
    simp [ObjectRule.validate, typeof, JSValue.isArray, JSValue.isNull,
      JSValue.isPlainKeyedContainer]

/-- C5: the string rule reports exactly one violation with rule name
`string` precisely when `typeof` is not `string`, reports nothing on a
textual value, and in all cases returns its reports normally. -/
theorem claim_C5 (v : JSValue) (ctx : ValidationContext) :
    (StringRule.validate v ctx =
        [{ pointer := ctx.pointer
           rule := "string"
           message := StringRule.DEFAULT_MESSAGE
           arrayExpressionPointer := ctx.arrayExpressionPointer }] ↔
      typeof v ≠ "string") ∧
    (StringRule.validate v ctx = [] ↔ v.isTextual = true) ∧
    ((typeof v = "string") ↔ v.isTextual = true) := by
  cases v <;> simp [StringRule.validate, typeof, JSValue.isTextual]

/-- C10: the object rule rejects every value whose `typeof` is not
`object` — in particular `undefined` and functions, including a function
carrying keyed properties. -/
theorem claim_C10 :
    (∀ (props : List (String × JSValue)) (ctx : ValidationContext),
      typeof (JSValue.function props) = "function" ∧
      ObjectRule.validate (JSValue.function props) ctx =
        [{ pointer := ctx.pointer
           rule := "object"
           message := ObjectRule.DEFAULT_MESSAGE
           arrayExpressionPointer := ctx.arrayExpressionPointer }]) ∧
    (∀ (v : JSValue) (ctx : ValidationContext), typeof v ≠ "object" →
      ObjectRule.validate v ctx =
        [{ pointer := ctx.pointer
           rule := "object"
           message := ObjectRule.DEFAULT_MESSAGE
           arrayExpressionPointer := ctx.arrayExpressionPointer }]) := by
  constructor
  · intro props ctx
    exact ⟨rfl, by simp [ObjectRule.validate, typeof]⟩
  · intro v ctx h
    cases v <;> simp_all [ObjectRule.validate, typeof]

/-- Witness for C10: a function value carrying a keyed property is
rejected by the object rule. -/
theorem claim_C10_witness :
    typeof (JSValue.function [("length", JSValue.number 0)]) ≠ "object" ∧
    ObjectRule.validate (JSValue.function [("length", JSValue.number 0)])
        ⟨"profile", none⟩ =
      [{ pointer := "profile"
         rule := "object"
         message := ObjectRule.DEFAULT_MESSAGE
         arrayExpressionPointer := none }] :=
  ⟨by decide,
    claim_C10.2 (JSValue.function [("length", JSValue.number 0)])
      ⟨"profile", none⟩ (by decide)⟩

/-! ## Runtime semantics of the emitted array-validation code -/

/-- The runtime phase of a rule: `(value, context) → reports`. -/
structure RuntimeRule where
  name : String
  validate : JSValue → ValidationContext → List ErrorReport

/-- The container-level rule chain the literal step emits: each rule
runs in declared order against the value, and the reports accumulate in
that order. -/
def runRuleChain (rules : List RuntimeRule) (value : JSValue)
    (ctx : ValidationContext) : List ErrorReport :=
  rules.foldl (fun acc rule => acc ++ rule.validate value ctx) []

/-- Modelled from the spec: the existence check behind
`getVariableExistsName` — the value is neither absent nor `null`. -/
def valueExists : JSValue → Bool
  | .undefined => false
  | .null => false
  | _ => true

/-- What the emitted element loop produces at runtime: the element
reports in ascending index order, for an array value; nothing for any
other shape.  `elemRun` abstracts the compiled element schema. -/
def elementReports (elemRun : Nat → JSValue → List ErrorReport) :
    JSValue → List ErrorReport
  | .array elems => elems.enum.flatMap (fun p => elemRun p.1 p.2)
  | _ => []

/-- The runtime meaning of the code `ArrayCompiler.compile` emits for an
array node with an element schema: first the container-level rule chain
(the literal step), then — only inside the
`if (exists && Array.isArray(value))` guard — the element loop. -/
def runArrayNode (containerRules : List RuntimeRule) (ctx : ValidationContext)
    (elemRun : Nat → JSValue → List ErrorReport) (value : JSValue) :
    List ErrorReport :=
  runRuleChain containerRules value ctx ++
    (if valueExists value && value.isArray then elementReports elemRun value
     else [])

/-- Modelled from the spec: the `array` rule fails when the value is not
list-shaped. -/
def arrayRule : RuntimeRule :=
  { name := "array"
    validate := fun value ctx =>
      if value.isArray then []
      else
        [{ pointer := ctx.pointer
           rule := "array"
           message := "array validation failed"
           arrayExpressionPointer := ctx.arrayExpressionPointer }] }

/-- C3: element processing is guarded on "value exists and is an array".
Syntactically, the element block the dispatch emits sits strictly
between the guard opener and its closer; semantically, for an input that
is absent or not an array no element-level code runs and no
element-level violation is reported — only the container-level rule
chain reports, e.g. a single `array` violation for `"not-an-array"`. -/
theorem claim_C3 (cc : ArrayCompiler.ChildCompiler) (hcc : ChildCompilerOk cc)
    (field : ValidationField) (rules : List Rule) (e : SchemaNode)
    (refs : References) (buff : CompilerBuffer) (comp : Compiler)
    (containerRules : List RuntimeRule) (ctx : ValidationContext)
    (elemRun : Nat → JSValue → List ErrorReport) (v : JSValue)
    (h : valueExists v = false ∨ v.isArray = false) :
    (∃ childLines,
      (ArrayCompiler.compile cc field rules (some e) refs buff comp).1.lines =
        buff.lines ++
          litEmittedLines (arrayLiteral field rules true) refs buff.indentation ++
          [(buff.indentation,
             ArrayCompiler.ifGuardLine (arrayLiteral field rules true).variableName)] ++
          ([(buff.indentation + 1,
              ArrayCompiler.outDeclarationLine field refs
                ("out_" ++ toString comp.outVariableCounter)),
            (buff.indentation + 1,
              if hasAsyncChildren e then
                ArrayCompiler.asyncForLoopLine
                  (arrayLiteral field rules true).variableName
                  ("index_" ++ toString comp.arrayIndexVariableCounter)
              else
                ArrayCompiler.forLoopLine
                  (arrayLiteral field rules true).variableName
                  ("index_" ++ toString comp.arrayIndexVariableCounter))] ++
            childLines ++ [(buff.indentation + 1, "\x7d")]) ++
          [(buff.indentation, "\x7d")]) ∧
    runArrayNode containerRules ctx elemRun v =
      runRuleChain containerRules v ctx ∧
    runArrayNode [arrayRule] ctx elemRun (.string "not-an-array") =
      [{ pointer := ctx.pointer
         rule := "array"
         message := "array validation failed"
         arrayExpressionPointer := ctx.arrayExpressionPointer }] := by
  refine ⟨?_, ?_, ?_⟩
  · obtain ⟨L, hL⟩ :=
      ArrayCompiler.compile_some_lines cc hcc field rules e refs buff comp
    refine ⟨L, ?_⟩
    rw [hL]
    simp
  · rcases h with h | h <;> simp [runArrayNode, h]
  · simp [runArrayNode, runRuleChain, arrayRule, valueExists, JSValue.isArray]

/-- Witness for C3 at the spec's example: the input `"not-an-array"`
yields exactly one `array` violation and zero element-level
violations. -/
theorem claim_C3_witness :
    (∃ childLines,
      (ArrayCompiler.compile idChildCompiler ⟨"items", .literal⟩
          [⟨"array", false, false⟩] (some (.literal "string" []))
          ⟨"out", "root", []⟩ CompilerBuffer.empty ⟨0, 0⟩).1.lines =
        CompilerBuffer.empty.lines ++
          litEmittedLines
            (arrayLiteral ⟨"items", .literal⟩ [⟨"array", false, false⟩] true)
            ⟨"out", "root", []⟩ CompilerBuffer.empty.indentation ++
          [(CompilerBuffer.empty.indentation,
             ArrayCompiler.ifGuardLine
               (arrayLiteral ⟨"items", .literal⟩ [⟨"array", false, false⟩]
                 true).variableName)] ++
          ([(CompilerBuffer.empty.indentation + 1,
              ArrayCompiler.outDeclarationLine ⟨"items", .literal⟩
                ⟨"out", "root", []⟩ ("out_" ++ toString (0 : Nat))),
            (CompilerBuffer.empty.indentation + 1,
              if hasAsyncChildren (.literal "string" []) then
                ArrayCompiler.asyncForLoopLine
                  (arrayLiteral ⟨"items", .literal⟩ [⟨"array", false, false⟩]
                    true).variableName
                  ("index_" ++ toString (0 : Nat))
              else
                ArrayCompiler.forLoopLine
                  (arrayLiteral ⟨"items", .literal⟩ [⟨"array", false, false⟩]
                    true).variableName
                  ("index_" ++ toString (0 : Nat)))] ++
            childLines ++ [(CompilerBuffer.empty.indentation + 1, "\x7d")]) ++
          [(CompilerBuffer.empty.indentation, "\x7d")]) ∧
    runArrayNode [arrayRule] ⟨"items", none⟩ (fun _ _ => [])
        (.string "not-an-array") =
      runRuleChain [arrayRule] (.string "not-an-array") ⟨"items", none⟩ ∧
    runArrayNode [arrayRule] ⟨"items", none⟩ (fun _ _ => [])
        (.string "not-an-array") =
      [{ pointer := "items"
         rule := "array"
         message := "array validation failed"
         arrayExpressionPointer := none }] :=
  claim_C3 idChildCompiler idChildCompiler_ok ⟨"items", .literal⟩
    [⟨"array", false, false⟩] (.literal "string" []) ⟨"out", "root", []⟩
    CompilerBuffer.empty ⟨0, 0⟩ [arrayRule] ⟨"items", none⟩ (fun _ _ => [])
    (.string "not-an-array") (Or.inr rfl)

/-! ## Termination and purity of `hasAsyncChildren` -/

mutual

/-- Size of a schema node: one plus the sizes of the subtrees
`hasAsyncChildren` can recurse into. -/
def nodeSize : SchemaNode → Nat
  | .literal _ _ => 1
  | .array _ each =>
    1 + (match each with | some e => nodeSize e | none => 0)
  | .object _ children => 1 + nodeListSize children

/-- Size of an object's children list. -/
def nodeListSize : NodeList → Nat
  | .nil => 0
  | .cons _ node rest => 1 + nodeSize node + nodeListSize rest

end

mutual

/-- `hasAsyncChildren` with an explicit recursion budget: each recursive
step of the source consumes one unit, and `none` means the budget ran
out.  Adequacy of any finite budget at least `nodeSize` is exactly the
termination of the source recursion on finite acyclic schemas. -/
def hasAsyncChildrenFuel : Nat → SchemaNode → Option Bool
  | 0, _ => none
  | _ + 1, .literal _ rules => some (rules.any (fun rule => rule.async))
  | fuel + 1, .array rules each =>
    if rules.any (fun rule => rule.async) then some true
    else
      match each with
      | some e => hasAsyncChildrenFuel fuel e
      | none => some false
  | fuel + 1, .object rules children =>
    if rules.any (fun rule => rule.async) then some true
    else hasAsyncChildrenFuelList fuel children

/-- Budgeted walk over an object's children. -/
def hasAsyncChildrenFuelList : Nat → NodeList → Option Bool
  | _, .nil => some false
  | 0, .cons _ _ _ => none
  | fuel + 1, .cons _ node rest =>
    match hasAsyncChildrenFuel fuel node with
    | none => none
    | some true => some true
    | some false => hasAsyncChildrenFuelList fuel rest

end

mutual

/-- With a budget of at least `nodeSize n`, the budgeted recursion
finishes and agrees with `hasAsyncChildren`. -/
theorem hasAsyncChildrenFuel_eq (n : SchemaNode) (f : Nat)
    (h : nodeSize n ≤ f) :
    hasAsyncChildrenFuel f n = some (hasAsyncChildren n) := by
  cases f with
  | zero =>
    exfalso
    cases n with
    | literal s rules => simp [nodeSize] at h
    | array rules each => cases each <;> simp [nodeSize] at h
    | object rules children => simp [nodeSize] at h
  | succ f' =>
    cases n with
    | literal s rules => simp [hasAsyncChildrenFuel, hasAsyncChildren]
    | array rules each =>
      cases each with
      | none =>
        cases hA : rules.any (fun rule => rule.async) <;>
          simp [hasAsyncChildrenFuel, hasAsyncChildren, hA]
      | some e =>
        have he : nodeSize e ≤ f' := by
          simp [nodeSize] at h
          omega
        cases hA : rules.any (fun rule => rule.async) <;>
          simp [hasAsyncChildrenFuel, hasAsyncChildren, hA,
            hasAsyncChildrenFuel_eq e f' he]
    | object rules children =>
      have hc : nodeListSize children ≤ f' := by
        simp [nodeSize] at h
        omega
      cases hA : rules.any (fun rule => rule.async) <;>
        simp [hasAsyncChildrenFuel, hasAsyncChildren, hA,
          hasAsyncChildrenFuelList_eq children f' hc]

/-- List version of `hasAsyncChildrenFuel_eq`. -/
theorem hasAsyncChildrenFuelList_eq (l : NodeList) (f : Nat)
    (h : nodeListSize l ≤ f) :
    hasAsyncChildrenFuelList f l = some (hasAsyncChildrenList l) := by
  cases l with
  | nil => cases f <;> rfl
  | cons name node rest =>
    cases f with
    | zero =>
      exfalso
      simp [nodeListSize] at h
    | succ f' =>
      have hn : nodeSize node ≤ f' := by
        simp [nodeListSize] at h
        omega
      have hr : nodeListSize rest ≤ f' := by
        simp [nodeListSize] at h
        omega
      rw [hasAsyncChildrenFuelList, hasAsyncChildrenFuel_eq node f' hn]
      cases hA : hasAsyncChildren node <;>
        simp [hasAsyncChildrenList, hA,
          hasAsyncChildrenFuelList_eq rest f' hr]

end

mutual

/-- `hasAsyncChildren` threaded through the compiler state it could, in
principle, have touched: the returned state is handed through each
recursive call exactly as the source call threads `this.compiler`. -/
def hasAsyncChildrenSt : SchemaNode → Compiler → Bool × Compiler
  | .literal _ rules, s => (rules.any (fun rule => rule.async), s)
  | .array rules each, s =>
    if rules.any (fun rule => rule.async) then (true, s)
    else
      match each with
      | some e => hasAsyncChildrenSt e s
      | none => (false, s)
  | .object rules children, s =>
    if rules.any (fun rule => rule.async) then (true, s)
    else hasAsyncChildrenStList children s

/-- State-threaded walk over an object's children. -/
def hasAsyncChildrenStList : NodeList → Compiler → Bool × Compiler
  | .nil, s => (false, s)
  | .cons _ node rest, s =>
    match hasAsyncChildrenSt node s with
    | (true, s₁) => (true, s₁)
    | (false, s₁) => hasAsyncChildrenStList rest s₁

end

mutual

/-- The state-threaded recursion returns the compiler state unchanged
and the same boolean as the pure function. -/
theorem hasAsyncChildrenSt_eq (n : SchemaNode) (s : Compiler) :
    hasAsyncChildrenSt n s = (hasAsyncChildren n, s) := by
  cases n with
  | literal st rules => rfl
  | array rules each =>
    cases each with
    | none =>
      cases hA : rules.any (fun rule => rule.async) <;>
        simp [hasAsyncChildrenSt, hasAsyncChildren, hA]
    | some e =>
      cases hA : rules.any (fun rule => rule.async) <;>
        simp [hasAsyncChildrenSt, hasAsyncChildren, hA,
          hasAsyncChildrenSt_eq e s]
  | object rules children =>
    cases hA : rules.any (fun rule => rule.async) <;>
      simp [hasAsyncChildrenSt, hasAsyncChildren, hA,
        hasAsyncChildrenStList_eq children s]

/-- List version of `hasAsyncChildrenSt_eq`. -/
theorem hasAsyncChildrenStList_eq (l : NodeList) (s : Compiler) :
    hasAsyncChildrenStList l s = (hasAsyncChildrenList l, s) := by
  cases l with
  | nil => rfl
  | cons name node rest =>
    rw [hasAsyncChildrenStList, hasAsyncChildrenSt_eq node s]
    cases hA : hasAsyncChildren node <;>
      simp [hasAsyncChildrenList, hA, hasAsyncChildrenStList_eq rest s]

end

/-- C9: on every finite schema tree, the recursion of
`hasAsyncChildren` terminates — a budget of `nodeSize n` steps always
suffices, since it only descends into the strictly smaller `each` and
children subtrees — and it is read-only: threading the compiler state
through every call returns it untouched alongside the boolean. -/
theorem claim_C9 (n : SchemaNode) :
    hasAsyncChildrenFuel (nodeSize n) n = some (hasAsyncChildren n) ∧
    (∀ s : Compiler, hasAsyncChildrenSt n s = (hasAsyncChildren n, s)) :=
  ⟨hasAsyncChildrenFuel_eq n (nodeSize n) (Nat.le_refl _),
    fun s => hasAsyncChildrenSt_eq n s⟩

end Validator
